import Mathlib

/-!
Shallow embedding of the Molecula portfolio bot's Portfolio Valuation and
Cashflow Aggregation Engine.

The embedded code is `MoleculaService` (the ledger paginator, cashflow
builder and aggregator) and `PortfolioService` (the XIRR solver and metrics
composer).  TypeScript strings (ledger ids, addresses, uint256 decimal
strings) are embedded as lists of Unicode codepoints so that every operation
on them is kernel-computable; `bigint` becomes `Int`, epoch values and dates
become `Int` millisecond counts, and IEEE doubles become exact rationals.
Network collaborators (the GraphQL upstream, the ERC-20 balance/decimals
calls, the address registry) enter as explicit function parameters.
-/

/-- A TypeScript string, embedded as its list of Unicode codepoints.  The
empty list is the empty string, the only falsy string value. -/
abbrev TSString := List Nat

/-- ASCII case folding: the fragment of `String.prototype.toLowerCase`
relevant to hex addresses and ledger ids (codepoints 65–90 shift to 97–122,
everything else is unchanged). -/
def toLowerCase (s : TSString) : TSString :=
  s.map (fun c => if 65 ≤ c ∧ c ≤ 90 then c + 32 else c)

/-- Numeric value of an ASCII decimal digit codepoint, `none` for any other
codepoint. -/
def digitVal (c : Nat) : Option Nat :=
  if 48 ≤ c ∧ c ≤ 57 then some (c - 48) else none

/-- Parse an unsigned run of decimal digit codepoints.  The empty run parses
to 0, matching JavaScript `BigInt("")` which converts to `0n`. -/
def parseDecDigits (s : TSString) : Option Nat :=
  s.foldl
    (fun acc c =>
      match acc, digitVal c with
      | some a, some d => some (a * 10 + d)
      | _, _ => none)
    (some 0)

/-- JavaScript `BigInt(v)` on a decimal numeric string: an optional sign
(codepoint 45 is a minus, 43 a plus) followed by decimal digits; the empty
string converts to `0n`; a bare sign or any non-digit throws, modelled as
`none`. -/
def bigIntOfString (s : TSString) : Option Int :=
  match s with
  | [] => some 0
  | c :: rest =>
    if c = 45 then
      if rest = [] then none else (parseDecDigits rest).map (fun n => -(n : Int))
    else if c = 43 then
      if rest = [] then none else (parseDecDigits rest).map (fun n => (n : Int))
    else
      (parseDecDigits s).map (fun n => (n : Int))

/-- `MoleculaService.parseBU`: `BigInt(v)` with the catch branch logging a
warning and returning `0n` for an unparsable value. -/
def parseBU (v : TSString) : Int := (bigIntOfString v).getD 0

/-- `MoleculaService.toDate`: normalize a raw `created` epoch to
milliseconds — `created > 1e12 ? created : created * 1000`.  The embedding
keeps the millisecond count itself rather than a `Date` object. -/
def toDateMs (created : Int) : Int :=
  if created > 10 ^ 12 then created else created * 1000

/-- The `type` discriminator of a ledger event. -/
inductive TokenOperationType where
  | deposit
  | withdrawal
  | swapDeposit
  | swapWithdrawal
  | transfer
deriving DecidableEq

/-- One ledger event, as returned by the `tokenOperations` GraphQL query.
The TypeScript fields `from` and `to` are spelled `fromAddr` and `toAddr`
because both are reserved tokens in Lean. -/
structure TokenOperation where
  _id : TSString
  created : Int
  sender : TSString
  fromAddr : TSString
  toAddr : TSString
  value : TSString
  type : TokenOperationType
deriving DecidableEq

/-- Id of the last element of a page, `ops[ops.length - 1]?._id`; the empty
string (falsy) when the page is empty. -/
def lastIdOf (ops : List TokenOperation) : TSString :=
  match ops.getLast? with
  | some op => op._id
  | none => []

/-- One cursor walk of `MoleculaService.iterateOperations` (the version with
stall protection, the one the current `PortfolioService` depends on).
`fetch before` is the page the upstream returns for cursor `before`;
`remaining` counts the safety increments left, `100000 - safety`.  One loop
iteration, in source order: fetch the page; stop on an empty page; yield the
page; stop when the last id is falsy or equals the previous cursor; advance
the cursor and stop when the safety counter passes 100 000. -/
def iterateOperationsGo (fetch : Option TSString → List TokenOperation) :
    Nat → Option TSString → List TokenOperation
  | remaining, before =>
    let ops := fetch before
    if ops = [] then []
    else
      let last := lastIdOf ops
      if last = [] ∨ some last = before then ops
      else
        match remaining with
        | 0 => ops
        | r + 1 => ops ++ iterateOperationsGo fetch r (some last)

/-- `iterateOperations`: the walk starts with no cursor and safety counter 0,
that is 100 000 remaining increments. -/
def iterateOperations (fetch : Option TSString → List TokenOperation) :
    List TokenOperation :=
  iterateOperationsGo fetch 100000 none

/-- Number of pages `iterateOperationsGo` fetches from the upstream; same
recursion structure as the walk itself. -/
def pagesFetchedGo (fetch : Option TSString → List TokenOperation) :
    Nat → Option TSString → Nat
  | remaining, before =>
    let ops := fetch before
    if ops = [] then 1
    else
      let last := lastIdOf ops
      if last = [] ∨ some last = before then 1
      else
        match remaining with
        | 0 => 1
        | r + 1 => 1 + pagesFetchedGo fetch r (some last)

/-- Number of pages one full `iterateOperations` call fetches. -/
def pagesFetched (fetch : Option TSString → List TokenOperation) : Nat :=
  pagesFetchedGo fetch 100000 none

/-- One base-unit cashflow, `CashflowBU`: the normalized millisecond date and
the signed base-unit amount (deposits negative, withdrawals positive). -/
structure CashflowBU where
  date : Int
  amountBU : Int
deriving DecidableEq

/-- The ledger upstream as the cashflow builder and aggregator see it:
`depositOps a` is the full sequence `iterateOperations` yields for the filter
`{to: a, type: [deposit, swapDeposit]}`, and `withdrawalOps a` the sequence
for `{from: a, type: [withdrawal, swapWithdrawal]}`, for a lower-cased
address `a`. -/
structure LedgerEnv where
  depositOps : TSString → List TokenOperation
  withdrawalOps : TSString → List TokenOperation

/-- The deposit half of `cashflowsForAddress`: for each yielded operation
whose lower-cased `to` matches the (already lower-cased) address, parse the
value and, when it is nonzero, emit `{date: toDate(created), amountBU: -v}`. -/
def depositEntries (addr : TSString) (ops : List TokenOperation) :
    List CashflowBU :=
  ops.filterMap
    (fun op =>
      if toLowerCase op.toAddr = addr then
        let v := parseBU op.value
        if v ≠ 0 then some ⟨toDateMs op.created, -v⟩ else none
      else none)

/-- The withdrawal half of `cashflowsForAddress`: operations whose lower-cased
`from` matches the address contribute `{date: toDate(created), amountBU: v}`
when the parsed value is nonzero. -/
def withdrawalEntries (addr : TSString) (ops : List TokenOperation) :
    List CashflowBU :=
  ops.filterMap
    (fun op =>
      if toLowerCase op.fromAddr = addr then
        let v := parseBU op.value
        if v ≠ 0 then some ⟨toDateMs op.created, v⟩ else none
      else none)

/-- Insert a cashflow into a date-sorted list, keeping it sorted. -/
def insertByDate (c : CashflowBU) : List CashflowBU → List CashflowBU
  | [] => [c]
  | x :: xs => if c.date ≤ x.date then c :: x :: xs else x :: insertByDate c xs

/-- `flows.sort((a, b) => a.date.getTime() - b.date.getTime())`: sort
cashflows ascending by date (insertion sort; only the ordering matters to the
source's comparator). -/
def sortByDate : List CashflowBU → List CashflowBU
  | [] => []
  | x :: xs => insertByDate x (sortByDate xs)

/-- `MoleculaService.cashflowsForAddress`: empty (falsy) address short
circuits to no flows; otherwise build the deposit entries and the withdrawal
entries from the two filtered queries and sort the concatenation by date. -/
def cashflowsForAddress (env : LedgerEnv) (address : TSString) :
    List CashflowBU :=
  if address = [] then []
  else
    let addr := toLowerCase address
    sortByDate
      (depositEntries addr (env.depositOps addr) ++
        withdrawalEntries addr (env.withdrawalOps addr))

/-- `MoleculaService.cashflowsForAddresses`: concatenate the per-address
flows in address-list order and re-sort globally by date. -/
def cashflowsForAddresses (env : LedgerEnv) (addresses : List TSString) :
    List CashflowBU :=
  sortByDate
    (addresses.foldl (fun all a => all ++ cashflowsForAddress env a) [])

/-- `MoleculaService.sumGrossDepositsForAddress`: sum of the parsed values of
the deposit-filtered query results whose lower-cased `to` matches the
address; 0 for the empty (falsy) address. -/
def sumGrossDepositsForAddress (env : LedgerEnv) (address : TSString) : Int :=
  if address = [] then 0
  else
    let addr := toLowerCase address
    (env.depositOps addr).foldl
      (fun sum op =>
        if toLowerCase op.toAddr = addr then sum + parseBU op.value else sum)
      0

/-- `MoleculaService.sumGrossWithdrawalsForAddress`: sum of the parsed values
of the withdrawal-filtered query results whose lower-cased `from` matches the
address; 0 for the empty address. -/
def sumGrossWithdrawalsForAddress (env : LedgerEnv) (address : TSString) :
    Int :=
  if address = [] then 0
  else
    let addr := toLowerCase address
    (env.withdrawalOps addr).foldl
      (fun sum op =>
        if toLowerCase op.fromAddr = addr then sum + parseBU op.value else sum)
      0

/-- `MoleculaService.sumGrossDepositsForAddresses`: the per-address gross
deposits accumulated over the address list. -/
def sumGrossDepositsForAddresses (env : LedgerEnv)
    (addresses : List TSString) : Int :=
  addresses.foldl (fun total a => total + sumGrossDepositsForAddress env a) 0

/-- `MoleculaService.sumGrossWithdrawalsForAddresses`. -/
def sumGrossWithdrawalsForAddresses (env : LedgerEnv)
    (addresses : List TSString) : Int :=
  addresses.foldl
    (fun total a => total + sumGrossWithdrawalsForAddress env a) 0

/-- `MoleculaService.sumNetDepositsForAddress`: gross deposits minus gross
withdrawals for one address. -/
def sumNetDepositsForAddress (env : LedgerEnv) (address : TSString) : Int :=
  sumGrossDepositsForAddress env address -
    sumGrossWithdrawalsForAddress env address

/-- `MoleculaService.sumNetDepositsForAddresses`: sum of the per-address net
deposits. -/
def sumNetDepositsForAddresses (env : LedgerEnv)
    (addresses : List TSString) : Int :=
  addresses.foldl (fun total a => total + sumNetDepositsForAddress env a) 0

/-- Result record of `computePnlSinceInceptionBU`. -/
structure PnlBU where
  grossDepositsBU : Int
  grossWithdrawalsBU : Int
  yieldBU : Int
deriving DecidableEq

/-- `MoleculaService.computePnlSinceInceptionBU`:
`yieldBU = balanceBU + grossWithdrawalsBU - grossDepositsBU`. -/
def computePnlSinceInceptionBU (env : LedgerEnv) (addresses : List TSString)
    (balanceBU : Int) : PnlBU :=
  let grossDepositsBU := sumGrossDepositsForAddresses env addresses
  let grossWithdrawalsBU := sumGrossWithdrawalsForAddresses env addresses
  ⟨grossDepositsBU, grossWithdrawalsBU,
    balanceBU + grossWithdrawalsBU - grossDepositsBU⟩



/-- `PortfolioService.toNumber` composed with `ethers.formatUnits`: base
units over `10 ^ decimals`, with exact rationals in place of IEEE doubles. -/
def toNumberQ (units : Int) (decimals : Nat) : ℚ :=
  (units : ℚ) / 10 ^ decimals

/-- `Number(x.toFixed(10))`: rounding to 10 decimal places. -/
def toFixed10 (x : ℚ) : ℚ :=
  ((round (x * 10 ^ 10) : ℤ) : ℚ) / 10 ^ 10

/-- One decimal cashflow as the XIRR solver consumes it: millisecond date and
signed decimal amount. -/
structure CashflowQ where
  date : Int
  amount : ℚ
deriving DecidableEq

/-- The numerically estimated NPV derivative in `xirr`: forward difference
`(xnpv(rate + h) - xnpv(rate)) / h` with step `h = 1e-6`.  The NPV function
itself (`xnpv`, a sum of real-exponent powers of `1 + rate`) enters as the
abstract parameter `npv`. -/
def newtonDeriv (npv : ℚ → ℚ) (rate : ℚ) : ℚ :=
  (npv (rate + 1 / 1000000) - npv rate) / (1 / 1000000)

/-- The Newton–Raphson loop of `xirr`, with the remaining iteration budget as
fuel.  Per iteration, in source order: estimate the derivative; break (and
ultimately return null) when its magnitude is below `1e-12`; otherwise take
the Newton step and return the new rate when the successive-rate delta is
below the tolerance `1e-7`; when the budget runs out, return null.  In exact
rational arithmetic every value is finite, so the source's non-finiteness
impossibilities need no extra branch. -/
def xirrGo (npv : ℚ → ℚ) : ℚ → Nat → Option ℚ
  | _, 0 => none
  | rate, n + 1 =>
    let d := newtonDeriv npv rate
    if |d| < 1 / 10 ^ 12 then none
    else
      let newRate := rate - npv rate / d
      if |newRate - rate| < 1 / 10 ^ 7 then some newRate
      else xirrGo npv newRate n

/-- `xirr(flows, guess)`: run the Newton–Raphson loop for at most
`maxIter = 100` iterations from the starting guess. -/
def xirr (npv : ℚ → ℚ) (guess : ℚ) : Option ℚ :=
  xirrGo npv guess 100

/-- Number of loop iterations the Newton–Raphson loop executes; same
recursion structure as `xirrGo`. -/
def xirrSteps (npv : ℚ → ℚ) : ℚ → Nat → Nat
  | _, 0 => 0
  | rate, n + 1 =>
    let d := newtonDeriv npv rate
    if |d| < 1 / 10 ^ 12 then 1
    else
      let newRate := rate - npv rate / d
      if |newRate - rate| < 1 / 10 ^ 7 then 1
      else 1 + xirrSteps npv newRate n

/-- The decimal series `computeApyFromFlows` builds before its sign check:
the base-unit flows converted by `toNumber`, followed by the synthetic
terminal cashflow `{date: new Date(), amount: current balance}`. -/
def combinedFlows (now : Int) (flowsBU : List CashflowBU)
    (currentBalanceBU : Int) (musdDecimals : Nat) : List CashflowQ :=
  flowsBU.map (fun f => ⟨f.date, toNumberQ f.amountBU musdDecimals⟩) ++
    [⟨now, toNumberQ currentBalanceBU musdDecimals⟩]

/-- `PortfolioService.computeApyFromFlows`.  The numeric solver is the
abstract parameter `solve`, standing for `(flows) => xirr(flows, 0.2)`; a
null solver result is mapped to 0 (the `!isFinite(irr)` half of that check is
vacuous in exact rational arithmetic). -/
def computeApyFromFlows (solve : List CashflowQ → Option ℚ) (now : Int)
    (flowsBU : List CashflowBU) (currentBalanceBU : Int)
    (musdDecimals : Nat) : ℚ :=
  if flowsBU = [] then 0
  else
    let flows := combinedFlows now flowsBU currentBalanceBU musdDecimals
    let hasOut := flows.any (fun f => decide (f.amount < 0))
    let hasIn := flows.any (fun f => decide (0 < f.amount))
    if !hasOut || !hasIn then 0
    else
      match solve flows with
      | none => 0
      | some irr => irr

/-- `PortfolioService.balanceOfBU`: the ERC-20 `balanceOf` call for the mUSD
token (the token argument is fixed per service instance and folded into
`lookup`); `lookup owner = none` models the call throwing, in which case the
catch branch logs the error and returns `0n`. -/
def balanceOfBU (lookup : TSString → Option Int) (owner : TSString) : Int :=
  match lookup owner with
  | some b => b
  | none => 0

/-- The stats record `getStats` returns. -/
structure PortfolioStats where
  deposit : ℚ
  balance : ℚ
  yieldValue : ℚ
  apy : ℚ
deriving DecidableEq

/-- `PortfolioService.getStats`.  The address registry's answer is the
`addresses` parameter, the resolved mUSD decimals is `musdDec`, the ERC-20
balance collaborator is `lookup`, and the XIRR solver is `solve`.  An empty
address list short circuits to all-zero stats; otherwise: net deposits and
cashflows from the ledger, summed balances with per-address failures zeroed,
`yieldValue = Number((balance - deposited).toFixed(10))`, and the APY from
the cashflows plus the terminal balance. -/
def getStats (env : LedgerEnv) (lookup : TSString → Option Int)
    (solve : List CashflowQ → Option ℚ) (now : Int)
    (addresses : List TSString) (musdDec : Nat) : PortfolioStats :=
  if addresses = [] then ⟨0, 0, 0, 0⟩
  else
    let flowsBU := cashflowsForAddresses env addresses
    let netDepositedBU := sumNetDepositsForAddresses env addresses
    let deposited := toNumberQ netDepositedBU musdDec
    let totalMusdBU := addresses.foldl (fun t a => t + balanceOfBU lookup a) 0
    let balance := toNumberQ totalMusdBU musdDec
    let yieldValue := toFixed10 (balance - deposited)
    let apy := computeApyFromFlows solve now flowsBU totalMusdBU musdDec
    ⟨deposited, balance, yieldValue, apy⟩


/-- Accumulating a mapped value over a fold equals the starting value plus
the mapped sum (the shape of every `for ... total += f(a)` loop in the
services). -/
theorem foldl_add_eq_sum {α : Type} (f : α → Int) (l : List α) (n : Int) :
    l.foldl (fun t a => t + f a) n = n + (l.map f).sum := by
  induction l generalizing n with
  | nil => simp
  | cons x xs ih => simp [ih]; ring

/-- Summing a pointwise difference is the difference of the sums. -/
theorem sum_map_sub {α : Type} (f g : α → Int) (l : List α) :
    (l.map fun a => f a - g a).sum = (l.map f).sum - (l.map g).sum := by
  induction l with
  | nil => simp
  | cons x xs ih => simp [ih]; ring

/-- The net total over an address list is the gross-deposit total minus the
gross-withdrawal total. -/
theorem sumNetDepositsForAddresses_eq (env : LedgerEnv)
    (addresses : List TSString) :
    sumNetDepositsForAddresses env addresses =
      sumGrossDepositsForAddresses env addresses -
        sumGrossWithdrawalsForAddresses env addresses := by
  simp only [sumNetDepositsForAddresses, sumGrossDepositsForAddresses,
    sumGrossWithdrawalsForAddresses, sumNetDepositsForAddress]
  rw [foldl_add_eq_sum, foldl_add_eq_sum, foldl_add_eq_sum, sum_map_sub]
  ring

theorem insertByDate_perm (c : CashflowBU) (l : List CashflowBU) :
    List.Perm (insertByDate c l) (c :: l) := by
  induction l with
  | nil => exact List.Perm.refl _
  | cons x xs ih =>
    simp only [insertByDate]
    split
    · exact List.Perm.refl _
    · exact (ih.cons x).trans (List.Perm.swap c x xs)

theorem sortByDate_perm (l : List CashflowBU) :
    List.Perm (sortByDate l) l := by
  induction l with
  | nil => exact List.Perm.refl _
  | cons x xs ih => exact (insertByDate_perm x (sortByDate xs)).trans (ih.cons x)

theorem mem_sortByDate {e : CashflowBU} {l : List CashflowBU} :
    e ∈ sortByDate l ↔ e ∈ l :=
  (sortByDate_perm l).mem_iff

theorem insertByDate_pairwise (c : CashflowBU) {l : List CashflowBU}
    (h : l.Pairwise (fun a b => a.date ≤ b.date)) :
    (insertByDate c l).Pairwise (fun a b => a.date ≤ b.date) := by
  induction l with
  | nil => simp [insertByDate]
  | cons x xs ih =>
    rw [List.pairwise_cons] at h
    simp only [insertByDate]
    split
    · rename_i hc
      refine List.pairwise_cons.mpr ⟨?_, List.pairwise_cons.mpr h⟩
      intro y hy
      rcases List.mem_cons.mp hy with rfl | hy
      · exact hc
      · exact le_trans hc (h.1 y hy)
    · rename_i hc
      refine List.pairwise_cons.mpr ⟨?_, ih h.2⟩
      intro y hy
      rcases List.mem_cons.mp ((insertByDate_perm c xs).mem_iff.mp hy) with
        rfl | hy
      · omega
      · exact h.1 y hy

theorem sortByDate_pairwise (l : List CashflowBU) :
    (sortByDate l).Pairwise (fun a b => a.date ≤ b.date) := by
  induction l with
  | nil => exact List.Pairwise.nil
  | cons x xs ih => exact insertByDate_pairwise x ih

/-- A fetched page's count is bounded by one more than the remaining safety
budget. -/
theorem pagesFetchedGo_le (fetch : Option TSString → List TokenOperation) :
    ∀ (r : Nat) (b : Option TSString), pagesFetchedGo fetch r b ≤ r + 1 := by
  intro r
  induction r with
  | zero =>
    intro b
    rw [pagesFetchedGo]
    dsimp only
    split
    · omega
    · split
      · omega
      · omega
  | succ k ih =>
    intro b
    rw [pagesFetchedGo]
    dsimp only
    split
    · omega
    · split
      · omega
      · have := ih (some (lastIdOf (fetch b)))
        omega

/-- An empty page stops the walk after that single fetch. -/
theorem pagesFetchedGo_empty (fetch : Option TSString → List TokenOperation)
    (r : Nat) (b : Option TSString) (h : fetch b = []) :
    pagesFetchedGo fetch r b = 1 := by
  rw [pagesFetchedGo]
  simp [h]

/-- A page whose last id equals the incoming cursor stops the walk after
that single fetch. -/
theorem pagesFetchedGo_stall (fetch : Option TSString → List TokenOperation)
    (r : Nat) (c : TSString) (h : lastIdOf (fetch (some c)) = c) :
    pagesFetchedGo fetch r (some c) = 1 := by
  rw [pagesFetchedGo]
  dsimp only
  split
  · rfl
  · rw [if_pos (Or.inr (by rw [h]))]

/-- The Newton–Raphson loop executes no more iterations than its fuel. -/
theorem xirrSteps_le (npv : ℚ → ℚ) :
    ∀ (n : Nat) (rate : ℚ), xirrSteps npv rate n ≤ n := by
  intro n
  induction n with
  | zero => intro rate; simp [xirrSteps]
  | succ k ih =>
    intro rate
    simp only [xirrSteps]
    split
    · omega
    · split
      · omega
      · have := ih (rate - npv rate / newtonDeriv npv rate)
        omega

/-- A rate the loop returns was produced by a Newton step from some previous
rate with a successive-rate delta below the tolerance. -/
theorem xirrGo_some_spec (npv : ℚ → ℚ) :
    ∀ (n : Nat) (rate out : ℚ), xirrGo npv rate n = some out →
      ∃ prev, out = prev - npv prev / newtonDeriv npv prev ∧
        |out - prev| < 1 / 10 ^ 7 := by
  intro n
  induction n with
  | zero => intro rate out h; simp [xirrGo] at h
  | succ k ih =>
    intro rate out h
    simp only [xirrGo] at h
    split at h
    · exact absurd h (by simp)
    · split at h
      · rename_i hd hdelta
        refine ⟨rate, (Option.some_inj.mp h).symm, ?_⟩
        rw [← Option.some_inj.mp h]
        exact hdelta
      · exact ih _ out h

/-- Unfolding the paginator at a page that advances the cursor: the page is
yielded and the walk continues from the last id with one less increment. -/
theorem iterateOperationsGo_step (fetch : Option TSString → List TokenOperation)
    (r : Nat) (b : Option TSString) (P : List TokenOperation)
    (h : fetch b = P) (hne : P ≠ []) (hid : lastIdOf P ≠ [])
    (hs : some (lastIdOf P) ≠ b) :
    iterateOperationsGo fetch (r + 1) b =
      P ++ iterateOperationsGo fetch r (some (lastIdOf P)) := by
  rw [iterateOperationsGo]
  simp [h, hne, hid, hs]

/-- Unfolding the paginator at a stalled page: the page is yielded and the
walk stops. -/
theorem iterateOperationsGo_stall
    (fetch : Option TSString → List TokenOperation)
    (r : Nat) (b : Option TSString) (P : List TokenOperation)
    (h : fetch b = P) (hne : P ≠ []) (hs : some (lastIdOf P) = b) :
    iterateOperationsGo fetch r b = P := by
  rw [iterateOperationsGo]
  dsimp only
  rw [h]
  rw [if_neg hne, if_pos (Or.inr hs)]

/-- Characterization of the entries the deposit half produces. -/
theorem depositEntries_mem {addr : TSString} {ops : List TokenOperation}
    {e : CashflowBU} (he : e ∈ depositEntries addr ops) :
    ∃ op ∈ ops, toLowerCase op.toAddr = addr ∧ parseBU op.value ≠ 0 ∧
      e = ⟨toDateMs op.created, -parseBU op.value⟩ := by
  rcases List.mem_filterMap.mp he with ⟨op, hop, heq⟩
  dsimp only at heq
  split at heq
  · split at heq
    · rename_i h1 h2
      exact ⟨op, hop, h1, h2, (Option.some_inj.mp heq).symm⟩
    · simp at heq
  · simp at heq

/-- Characterization of the entries the withdrawal half produces. -/
theorem withdrawalEntries_mem {addr : TSString} {ops : List TokenOperation}
    {e : CashflowBU} (he : e ∈ withdrawalEntries addr ops) :
    ∃ op ∈ ops, toLowerCase op.fromAddr = addr ∧ parseBU op.value ≠ 0 ∧
      e = ⟨toDateMs op.created, parseBU op.value⟩ := by
  rcases List.mem_filterMap.mp he with ⟨op, hop, heq⟩
  dsimp only at heq
  split at heq
  · split at heq
    · rename_i h1 h2
      exact ⟨op, hop, h1, h2, (Option.some_inj.mp heq).symm⟩
    · simp at heq
  · simp at heq

/-- C1: for every address set with gross deposit total `D`, gross withdrawal
total `W` (base units) and current balance `B`, `getStats` reports
`yieldValue = balance + grossWithdrawn - grossDeposited`: the code's form
`balance - netDeposited` (with `netDeposited = D - W` as computed by
`sumNetDepositsForAddresses`, then rounded via `toFixed(10)`) equals the
gross-based formula, and at the base-unit level
`computePnlSinceInceptionBU`'s `yieldBU = B + W - D` equals
`B - netDeposited`. -/
theorem getStats_yieldValue_gross_eq_net (env : LedgerEnv)
    (lookup : TSString → Option Int) (solve : List CashflowQ → Option ℚ)
    (now : Int) (addresses : List TSString) (musdDec : Nat) :
    (getStats env lookup solve now addresses musdDec).yieldValue =
      toFixed10
        (toNumberQ (addresses.foldl (fun t a => t + balanceOfBU lookup a) 0)
            musdDec +
          toNumberQ (sumGrossWithdrawalsForAddresses env addresses) musdDec -
          toNumberQ (sumGrossDepositsForAddresses env addresses) musdDec) ∧
    ∀ balanceBU : Int,
      (computePnlSinceInceptionBU env addresses balanceBU).yieldBU =
        balanceBU - sumNetDepositsForAddresses env addresses := by
  constructor
  · by_cases h : addresses = []
    · subst h
      simp [getStats, sumGrossWithdrawalsForAddresses,
        sumGrossDepositsForAddresses, toNumberQ, toFixed10]
    · simp only [getStats, if_neg h]
      rw [sumNetDepositsForAddresses_eq]
      congr 1
      simp only [toNumberQ]
      push_cast
      ring
  · intro b
    simp only [computePnlSinceInceptionBU, sumNetDepositsForAddresses_eq]
    ring

/-- C8: an empty tracked-address list short circuits `getStats` to the
all-zero stats record; the result does not depend on the ledger upstream,
the balance collaborator, the solver or the decimals, which is the
embedding's rendering of "no network calls are issued". -/
theorem getStats_empty_addresses (env : LedgerEnv)
    (lookup : TSString → Option Int) (solve : List CashflowQ → Option ℚ)
    (now : Int) (musdDec : Nat) :
    getStats env lookup solve now [] musdDec = ⟨0, 0, 0, 0⟩ := rfl

/-- C9: aggregation over an address set satisfies the net identity
`net = grossDeposits - grossWithdrawals` and each total is invariant under
permutation of the address list (arbitrary-precision integer summation). -/
theorem sum_aggregation_net_and_perm (env : LedgerEnv)
    (l l2 : List TSString) (hp : List.Perm l l2) :
    sumNetDepositsForAddresses env l =
        sumGrossDepositsForAddresses env l -
          sumGrossWithdrawalsForAddresses env l ∧
    sumGrossDepositsForAddresses env l =
        sumGrossDepositsForAddresses env l2 ∧
    sumGrossWithdrawalsForAddresses env l =
        sumGrossWithdrawalsForAddresses env l2 ∧
    sumNetDepositsForAddresses env l = sumNetDepositsForAddresses env l2 := by
  have hd : sumGrossDepositsForAddresses env l =
      sumGrossDepositsForAddresses env l2 := by
    simp only [sumGrossDepositsForAddresses]
    rw [foldl_add_eq_sum, foldl_add_eq_sum, List.Perm.sum_eq (hp.map _)]
  have hw : sumGrossWithdrawalsForAddresses env l =
      sumGrossWithdrawalsForAddresses env l2 := by
    simp only [sumGrossWithdrawalsForAddresses]
    rw [foldl_add_eq_sum, foldl_add_eq_sum, List.Perm.sum_eq (hp.map _)]
  refine ⟨sumNetDepositsForAddresses_eq env l, hd, hw, ?_⟩
  rw [sumNetDepositsForAddresses_eq, sumNetDepositsForAddresses_eq, hd, hw]

/-- A two-address environment used to instantiate the aggregation claim: one
deposit of 5 base units to whichever address is queried, no withdrawals. -/
def envC9 : LedgerEnv :=
  ⟨fun a => [⟨[105], 1, [], [], a, [53], TokenOperationType.deposit⟩],
    fun _ => []⟩

/-- Witness for C9 at the address lists `["a", "b"]` and `["b", "a"]`. -/
theorem sum_aggregation_net_and_perm_witness :
    sumNetDepositsForAddresses envC9 [[97], [98]] =
        sumGrossDepositsForAddresses envC9 [[97], [98]] -
          sumGrossWithdrawalsForAddresses envC9 [[97], [98]] ∧
    sumGrossDepositsForAddresses envC9 [[97], [98]] =
        sumGrossDepositsForAddresses envC9 [[98], [97]] ∧
    sumGrossWithdrawalsForAddresses envC9 [[97], [98]] =
        sumGrossWithdrawalsForAddresses envC9 [[98], [97]] ∧
    sumNetDepositsForAddresses envC9 [[97], [98]] =
        sumNetDepositsForAddresses envC9 [[98], [97]] :=
  sum_aggregation_net_and_perm envC9 [[97], [98]] [[98], [97]] (by decide)

/-- C2: the paginated iterator terminates for every upstream: a full call
fetches at most 100 001 pages, an empty page stops the walk after that
fetch, and a returned last id equal to the previous cursor stops the walk
after that fetch. -/
theorem iterateOperations_page_bound
    (fetch : Option TSString → List TokenOperation) :
    pagesFetched fetch ≤ 100001 ∧
    (∀ (r : Nat) (b : Option TSString), fetch b = [] →
      pagesFetchedGo fetch r b = 1) ∧
    (∀ (r : Nat) (c : TSString), lastIdOf (fetch (some c)) = c →
      pagesFetchedGo fetch r (some c) = 1) := by
  refine ⟨?_, ?_, ?_⟩
  · have h := pagesFetchedGo_le fetch 100000 none
    simpa [pagesFetched] using h
  · intro r b h
    exact pagesFetchedGo_empty fetch r b h
  · intro r c h
    exact pagesFetchedGo_stall fetch r c h

/-- Witness for C2: an upstream that always answers with an empty page is
done after one fetch, both from the initial cursor and from a cursor whose
page stalls. -/
theorem iterateOperations_page_bound_witness :
    pagesFetchedGo (fun _ => ([] : List TokenOperation)) 100000 none = 1 ∧
    pagesFetchedGo (fun _ => ([] : List TokenOperation)) 7 (some []) = 1 :=
  ⟨(iterateOperations_page_bound (fun _ => [])).2.1 100000 none rfl,
    (iterateOperations_page_bound (fun _ => [])).2.2 7 [] rfl⟩

/-- C10: when the upstream returns a non-empty page whose last id equals the
previous cursor, the iterator yields the whole repeated page before the
stall check fires, so with a constant upstream each event of the stalled
page is emitted twice in total. -/
theorem iterateOperations_stalled_page_double_yield
    (fetch : Option TSString → List TokenOperation)
    (P : List TokenOperation) (h0 : fetch none = P) (hne : P ≠ [])
    (hid : lastIdOf P ≠ []) (h1 : fetch (some (lastIdOf P)) = P) :
    iterateOperations fetch = P ++ P := by
  have hstep :
      iterateOperationsGo fetch (99999 + 1) none =
        P ++ iterateOperationsGo fetch 99999 (some (lastIdOf P)) :=
    iterateOperationsGo_step fetch 99999 none P h0 hne hid (by simp)
  have hstall : iterateOperationsGo fetch 99999 (some (lastIdOf P)) = P :=
    iterateOperationsGo_stall fetch 99999 (some (lastIdOf P)) P h1 hne rfl
  show iterateOperationsGo fetch 100000 none = P ++ P
  rw [show (100000 : Nat) = 99999 + 1 from rfl, hstep, hstall]

/-- A one-event page with id "a", repeated forever by the upstream. -/
def opC10 : TokenOperation :=
  ⟨[97], 5, [], [], [], [53], TokenOperationType.deposit⟩

/-- Witness for C10: the constant upstream page `[opC10]` is yielded twice. -/
theorem iterateOperations_stalled_page_double_yield_witness :
    iterateOperations (fun _ => [opC10]) = [opC10, opC10] := by
  have h := iterateOperations_stalled_page_double_yield (fun _ => [opC10])
    [opC10] rfl (by simp) (by decide) rfl
  simpa using h

/-- C6: timestamp normalization is the single fixed rule `toDate`: a raw
epoch strictly above `1e12` is treated as milliseconds as-is, otherwise it
is multiplied by 1000; the raw epochs `1700000000` and `1700000000000`
normalize to the same instant; and every date a cashflow entry carries is
`toDate` of some underlying event's `created`. -/
theorem toDate_normalization :
    (∀ c : Int, 10 ^ 12 < c → toDateMs c = c) ∧
    (∀ c : Int, c ≤ 10 ^ 12 → toDateMs c = c * 1000) ∧
    toDateMs 1700000000 = toDateMs 1700000000000 ∧
    (∀ (addr : TSString) (ops : List TokenOperation),
      ∀ e ∈ depositEntries addr ops,
        ∃ op ∈ ops, e.date = toDateMs op.created) ∧
    (∀ (addr : TSString) (ops : List TokenOperation),
      ∀ e ∈ withdrawalEntries addr ops,
        ∃ op ∈ ops, e.date = toDateMs op.created) ∧
    (∀ (env : LedgerEnv) (address : TSString),
      ∀ e ∈ cashflowsForAddress env address,
        ∃ op ∈ env.depositOps (toLowerCase address) ++
            env.withdrawalOps (toLowerCase address),
          e.date = toDateMs op.created) := by
  refine ⟨?_, ?_, ?_, ?_, ?_, ?_⟩
  · intro c h
    rw [toDateMs, if_pos (by omega : c > 10 ^ 12)]
  · intro c h
    rw [toDateMs, if_neg (by omega)]
  · norm_num [toDateMs]
  · intro addr ops e he
    rcases depositEntries_mem he with ⟨op, hop, _, _, rfl⟩
    exact ⟨op, hop, rfl⟩
  · intro addr ops e he
    rcases withdrawalEntries_mem he with ⟨op, hop, _, _, rfl⟩
    exact ⟨op, hop, rfl⟩
  · intro env address e he
    by_cases h : address = []
    · rw [cashflowsForAddress, if_pos h] at he
      simp at he
    · rw [cashflowsForAddress, if_neg h] at he
      rcases List.mem_append.mp (mem_sortByDate.mp he) with hd | hw
      · rcases depositEntries_mem hd with ⟨op, hop, _, _, rfl⟩
        exact ⟨op, List.mem_append_left _ hop, rfl⟩
      · rcases withdrawalEntries_mem hw with ⟨op, hop, _, _, rfl⟩
        exact ⟨op, List.mem_append_right _ hop, rfl⟩

/-- A one-deposit environment for the normalization witness: value "5" to
address "a" at raw epoch 1 (seconds). -/
def envC6 : LedgerEnv :=
  ⟨fun _ => [⟨[105], 1, [], [], [97], [53], TokenOperationType.deposit⟩],
    fun _ => []⟩

/-- Witness for C6 at raw epochs `2e12` (milliseconds as-is) and `5`
(seconds, scaled), plus a concrete cashflow date. -/
theorem toDate_normalization_witness :
    toDateMs 2000000000000 = 2000000000000 ∧
    toDateMs 5 = 5000 ∧
    (∃ op ∈ envC6.depositOps [97] ++ envC6.withdrawalOps [97],
      (⟨1000, -5⟩ : CashflowBU).date = toDateMs op.created) := by
  refine ⟨toDate_normalization.1 2000000000000 (by norm_num), ?_, ?_⟩
  · have h := toDate_normalization.2.1 5 (by norm_num)
    simpa using h
  · exact toDate_normalization.2.2.2.2.2 envC6 [65] ⟨1000, -5⟩ (by decide)

/-- C5: cashflow lists are sorted ascending by date (single-address and
merged multi-address variants); under the ledger invariant that raw values
are non-negative, every entry built from a deposit/swapDeposit event
received by the address is strictly negative and every entry built from a
withdrawal/swapWithdrawal event sent by the address is strictly positive;
zero-magnitude events contribute no entry; and the single-address result is
exactly a permutation of the deposit entries and withdrawal entries. -/
theorem cashflows_sorted_and_signed (env : LedgerEnv) (address : TSString)
    (addresses : List TSString) :
    (cashflowsForAddress env address).Pairwise
        (fun a b => a.date ≤ b.date) ∧
    (cashflowsForAddresses env addresses).Pairwise
        (fun a b => a.date ≤ b.date) ∧
    (∀ (addr : TSString) (ops : List TokenOperation),
      (∀ op ∈ ops, 0 ≤ parseBU op.value) →
        ∀ e ∈ depositEntries addr ops, e.amountBU < 0) ∧
    (∀ (addr : TSString) (ops : List TokenOperation),
      (∀ op ∈ ops, 0 ≤ parseBU op.value) →
        ∀ e ∈ withdrawalEntries addr ops, 0 < e.amountBU) ∧
    (∀ e ∈ cashflowsForAddress env address, e.amountBU ≠ 0) ∧
    (address ≠ [] →
      List.Perm (cashflowsForAddress env address)
        (depositEntries (toLowerCase address)
            (env.depositOps (toLowerCase address)) ++
          withdrawalEntries (toLowerCase address)
            (env.withdrawalOps (toLowerCase address)))) := by
  refine ⟨?_, ?_, ?_, ?_, ?_, ?_⟩
  · by_cases h : address = []
    · rw [cashflowsForAddress, if_pos h]
      exact List.Pairwise.nil
    · rw [cashflowsForAddress, if_neg h]
      exact sortByDate_pairwise _
  · rw [cashflowsForAddresses]
    exact sortByDate_pairwise _
  · intro addr ops hval e he
    rcases depositEntries_mem he with ⟨op, hop, _, hnz, rfl⟩
    have := hval op hop
    simp only [CashflowBU.mk.injEq]
    omega
  · intro addr ops hval e he
    rcases withdrawalEntries_mem he with ⟨op, hop, _, hnz, rfl⟩
    have := hval op hop
    simp only [CashflowBU.mk.injEq]
    omega
  · intro e he
    by_cases h : address = []
    · rw [cashflowsForAddress, if_pos h] at he
      simp at he
    · rw [cashflowsForAddress, if_neg h] at he
      rcases List.mem_append.mp (mem_sortByDate.mp he) with hd | hw
      · rcases depositEntries_mem hd with ⟨op, _, _, hnz, rfl⟩
        simpa using hnz
      · rcases withdrawalEntries_mem hw with ⟨op, _, _, hnz, rfl⟩
        simpa using hnz
  · intro h
    rw [cashflowsForAddress, if_neg h]
    exact sortByDate_perm _

/-- One deposit event (value "5" to "a", second 1) for the cashflow sign
witness. -/
def opC5d : TokenOperation :=
  ⟨[100], 1, [], [], [97], [53], TokenOperationType.deposit⟩

/-- One withdrawal event (value "3" from "a", second 2) for the cashflow
sign witness. -/
def opC5w : TokenOperation :=
  ⟨[119], 2, [], [97], [], [51], TokenOperationType.withdrawal⟩

/-- An environment answering both filtered queries with those single
events. -/
def envC5 : LedgerEnv := ⟨fun _ => [opC5d], fun _ => [opC5w]⟩

/-- Witness for C5: concrete entries built for the address "A" (folded to
"a") carry the claimed strict signs, and the built list is the permutation
of its two halves. -/
theorem cashflows_sorted_and_signed_witness :
    ((⟨1000, -5⟩ : CashflowBU).amountBU < 0) ∧
    (0 < (⟨2000, 3⟩ : CashflowBU).amountBU) ∧
    List.Perm (cashflowsForAddress envC5 [65])
      (depositEntries [97] (envC5.depositOps [97]) ++
        withdrawalEntries [97] (envC5.withdrawalOps [97])) :=
  ⟨(cashflows_sorted_and_signed envC5 [65] []).2.2.1 [97] [opC5d]
      (by decide) ⟨1000, -5⟩ (by decide),
    (cashflows_sorted_and_signed envC5 [65] []).2.2.2.1 [97] [opC5w]
      (by decide) ⟨2000, 3⟩ (by decide),
    (cashflows_sorted_and_signed envC5 [65] []).2.2.2.2.2 (by decide)⟩

/-- C7: a failed balance lookup for one address never aborts the
multi-address stats computation; `balanceOfBU` answers 0 for that address
and `getStats` returns exactly the stats it would return had the lookup
answered 0 there, covering the remaining addresses normally. -/
theorem balanceOf_failure_is_zero (env : LedgerEnv)
    (lookup : TSString → Option Int) (solve : List CashflowQ → Option ℚ)
    (now : Int) (addresses : List TSString) (musdDec : Nat) (a : TSString)
    (ha : lookup a = none) :
    balanceOfBU lookup a = 0 ∧
    getStats env lookup solve now addresses musdDec =
      getStats env (fun x => if x = a then some 0 else lookup x) solve now
        addresses musdDec := by
  have hb : ∀ x, balanceOfBU lookup x =
      balanceOfBU (fun y => if y = a then some 0 else lookup y) x := by
    intro x
    by_cases hx : x = a
    · subst hx
      simp [balanceOfBU, ha]
    · simp [balanceOfBU, hx]
  constructor
  · simp [balanceOfBU, ha]
  · have hfold : (fun (t : Int) (x : TSString) => t + balanceOfBU lookup x) =
        fun t x =>
          t + balanceOfBU (fun y => if y = a then some 0 else lookup y) x := by
      funext t x
      rw [hb x]
    rw [getStats, getStats, hfold]

/-- Witness for C7: one tracked address "a" whose lookup always fails. -/
theorem balanceOf_failure_is_zero_witness :
    balanceOfBU (fun _ => none) [97] = 0 ∧
    getStats ⟨fun _ => [], fun _ => []⟩ (fun _ => none) (fun _ => none) 0
        [[97]] 18 =
      getStats ⟨fun _ => [], fun _ => []⟩
        (fun x => if x = [97] then some 0 else none) (fun _ => none) 0
        [[97]] 18 :=
  balanceOf_failure_is_zero ⟨fun _ => [], fun _ => []⟩ (fun _ => none)
    (fun _ => none) 0 [[97]] 18 [97] rfl

/-- C3: the APY computation attempts the XIRR solve only if, after appending
the synthetic terminal balance cashflow, the combined series has at least
one strictly negative and one strictly positive entry; otherwise it returns
0 (for any solver, i.e. without consulting it). -/
theorem computeApyFromFlows_sign_guard (solve : List CashflowQ → Option ℚ)
    (now : Int) (flowsBU : List CashflowBU) (currentBalanceBU : Int)
    (musdDecimals : Nat) :
    ((¬ ∃ f ∈ combinedFlows now flowsBU currentBalanceBU musdDecimals,
        f.amount < 0) ∨
      (¬ ∃ f ∈ combinedFlows now flowsBU currentBalanceBU musdDecimals,
        0 < f.amount) →
      computeApyFromFlows solve now flowsBU currentBalanceBU musdDecimals =
        0) ∧
    ((∃ f ∈ combinedFlows now flowsBU currentBalanceBU musdDecimals,
        f.amount < 0) →
      (∃ f ∈ combinedFlows now flowsBU currentBalanceBU musdDecimals,
        0 < f.amount) →
      computeApyFromFlows solve now flowsBU currentBalanceBU musdDecimals =
        match
          solve (combinedFlows now flowsBU currentBalanceBU musdDecimals)
          with
        | none => 0
        | some irr => irr) := by
  constructor
  · intro h
    by_cases hfl : flowsBU = []
    · rw [computeApyFromFlows, if_pos hfl]
    · rw [computeApyFromFlows, if_neg hfl]
      dsimp only
      rcases h with h | h
      · have hout :
            (combinedFlows now flowsBU currentBalanceBU musdDecimals).any
              (fun f => decide (f.amount < 0)) = false := by
          rw [List.any_eq_false]
          intro f hf
          simp only [decide_eq_true_eq]
          exact fun hlt => h ⟨f, hf, hlt⟩
        rw [hout]
        simp
      · have hin :
            (combinedFlows now flowsBU currentBalanceBU musdDecimals).any
              (fun f => decide (0 < f.amount)) = false := by
          rw [List.any_eq_false]
          intro f hf
          simp only [decide_eq_true_eq]
          exact fun hlt => h ⟨f, hf, hlt⟩
        rw [hin]
        simp
  · intro h1 h2
    by_cases hfl : flowsBU = []
    · exfalso
      subst hfl
      rcases h1 with ⟨f, hf, hlt⟩
      rcases h2 with ⟨g, hg, hgt⟩
      simp only [combinedFlows, List.map_nil, List.nil_append,
        List.mem_singleton] at hf hg
      subst hf
      subst hg
      linarith
    · rw [computeApyFromFlows, if_neg hfl]
      dsimp only
      have hout :
          (combinedFlows now flowsBU currentBalanceBU musdDecimals).any
            (fun f => decide (f.amount < 0)) = true := by
        rcases h1 with ⟨f, hf, hlt⟩
        exact List.any_eq_true.mpr ⟨f, hf, by simpa using hlt⟩
      have hin :
          (combinedFlows now flowsBU currentBalanceBU musdDecimals).any
            (fun f => decide (0 < f.amount)) = true := by
        rcases h2 with ⟨f, hf, hlt⟩
        exact List.any_eq_true.mpr ⟨f, hf, by simpa using hlt⟩
      rw [hout, hin]
      simp

/-- Witness for C3: a lone positive terminal balance returns 0 without the
(everywhere-some) solver being consulted; a deposit plus positive balance
reaches the solver, whose answer 7 is reported. -/
theorem computeApyFromFlows_sign_guard_witness :
    computeApyFromFlows (fun _ => some 7) 0 [] 5 0 = 0 ∧
    computeApyFromFlows (fun _ => some 7) 0 [⟨0, -1⟩] 5 0 = 7 := by
  constructor
  · exact (computeApyFromFlows_sign_guard (fun _ => some 7) 0 [] 5 0).1
      (Or.inl (by norm_num [combinedFlows, toNumberQ]))
  · have h := (computeApyFromFlows_sign_guard (fun _ => some 7) 0
      [⟨0, -1⟩] 5 0).2
      ⟨⟨0, toNumberQ (-1) 0⟩, by norm_num [combinedFlows], by
        norm_num [toNumberQ]⟩
      ⟨⟨0, toNumberQ 5 0⟩, by norm_num [combinedFlows], by
        norm_num [toNumberQ]⟩
    simpa using h

/-- C4: the Newton–Raphson `xirr` iteration runs at most 100 steps; a
negligible-magnitude derivative (below `1e-12`) aborts the iteration with no
solution; a returned rate always comes from a Newton step whose
successive-rate delta is below `1e-7`; exhausting the budget yields no
solution; and the caller maps a solver that yields no solution to a reported
APY of 0.  (Non-finite doubles do not exist in the exact rational embedding;
the caller's `!isFinite` guard is vacuous there.) -/
theorem xirr_budget_convergence (npv : ℚ → ℚ) (rate guess : ℚ) (n : Nat) :
    xirrSteps npv guess 100 ≤ 100 ∧
    xirrGo npv rate 0 = none ∧
    (|newtonDeriv npv rate| < 1 / 10 ^ 12 → xirrGo npv rate (n + 1) = none) ∧
    (∀ out : ℚ, xirrGo npv rate n = some out →
      ∃ prev, out = prev - npv prev / newtonDeriv npv prev ∧
        |out - prev| < 1 / 10 ^ 7) ∧
    (∀ (solve : List CashflowQ → Option ℚ) (now2 : Int)
        (flowsBU : List CashflowBU) (currentBalanceBU : Int)
        (musdDecimals : Nat), (∀ fl, solve fl = none) →
      computeApyFromFlows solve now2 flowsBU currentBalanceBU musdDecimals =
        0) := by
  refine ⟨xirrSteps_le npv 100 guess, by simp [xirrGo], ?_, ?_, ?_⟩
  · intro h
    rw [xirrGo]
    dsimp only
    rw [if_pos h]
  · intro out h
    exact xirrGo_some_spec npv n rate out h
  · intro solve now2 flowsBU currentBalanceBU musdDecimals hnone
    by_cases hfl : flowsBU = []
    · rw [computeApyFromFlows, if_pos hfl]
    · rw [computeApyFromFlows, if_neg hfl]
      dsimp only
      rw [hnone]
      split <;> rfl

/-- Witness for C4: a flat NPV aborts on the degenerate derivative; the NPV
`r - 1` converges in one accepted Newton step to the rate 1; an
always-failing solver reports APY 0. -/
theorem xirr_budget_convergence_witness :
    xirrGo (fun _ : ℚ => (0 : ℚ)) 1 1 = none ∧
    (∃ prev : ℚ,
      (1 : ℚ) = prev - (prev - 1) / newtonDeriv (fun r => r - 1) prev ∧
        |(1 : ℚ) - prev| < 1 / 10 ^ 7) ∧
    computeApyFromFlows (fun _ => none) 0 [] 0 0 = 0 := by
  refine ⟨?_, ?_, ?_⟩
  · exact (xirr_budget_convergence (fun _ => 0) 1 1 0).2.2.1
      (by norm_num [newtonDeriv])
  · exact (xirr_budget_convergence (fun r => r - 1) 1 1 1).2.2.2.1 1
      (by norm_num [xirrGo, newtonDeriv])
  · exact (xirr_budget_convergence (fun r => r) 1 1 0).2.2.2.2
      (fun _ => none) 0 [] 0 0 (fun _ => rfl)
